import Mathlib

/-!
Verification of the transfer lifecycle and streaming archive assembly
subsystem of the swift-transfer backend.

The definitions below are a shallow embedding of the Express route
handlers in `src/routes/transfers.ts` (the full variant that also carries
the `download.zip` route): `/init`, `/complete`, `GET /:transferId`,
`GET /:transferId/files/:index/download`, `POST /:transferId/email` and
`GET /:transferId/download.zip`.  Firestore is modelled as a partial map
from transfer ids to documents, timestamps as natural numbers
(milliseconds), and the signed-URL issuance of the object store as an
oracle function returning either a URL or a provider error.
-/

namespace SwiftTransfer

/-- Characters kept by the sanitization regex `[^\w.\-()+ ]` used in
`/init` (`safeName`) and in `download.zip` (`safeBase`): ASCII word
characters, dot, dash, parentheses, plus and space. -/
def isSafeChar (c : Char) : Bool :=
  c.isAlphanum || c == '_' || c == '.' || c == '-' || c == '(' || c == ')' ||
    c == '+' || c == ' '

/-- JS `name.replace(/[^\w.\-()+ ]/g, "_")`: every character outside the
safe set becomes an underscore. -/
def sanitizeName (s : String) : String :=
  String.mk (s.data.map (fun c => if isSafeChar c then c else '_'))

/-- A stored file record, as persisted in the `files` array of a
transfer document. -/
structure FileRec where
  name : String
  type : String
  size : Option Int
  objectPath : String
deriving DecidableEq

/-- A transfer document as stored in the `transfers` Firestore
collection.  `status` is the raw string field (`"draft"` or `"ready"`);
`completedAt` and `expiresAt` are absent on drafts. -/
structure TransferDoc where
  transferId : String
  status : String
  createdAt : Nat
  completedAt : Option Nat
  expiresAt : Option Nat
  files : List FileRec
deriving DecidableEq

/-- The document store: a map from transfer id to document. -/
def Store : Type := String → Option TransferDoc

/-- A single-document `set` on the store. -/
def setStore (store : Store) (tid : String) (d : TransferDoc) : Store :=
  fun t => if t = tid then some d else store t

/-! ### Shared expiry guard

Every read route runs the same inline check
`data?.expiresAt && typeof data.expiresAt === "number" && Date.now() > data.expiresAt`;
a stored numeric `expiresAt` is only effective when truthy (nonzero). -/

def isExpiredCheck (d : TransferDoc) (now : Nat) : Bool :=
  match d.expiresAt with
  | some e => e != 0 && decide (e < now)
  | none => false

/-! ### `/init` (create) -/

/-- An input file descriptor of the `/init` body (zod `InitSchema`):
`name` required nonempty, `type` optional, `size` optional nonnegative
integer. -/
structure FileDesc where
  name : String
  type : Option String
  size : Option Int
deriving DecidableEq

/-- Effective MIME type: the zod default plus the `f.type || ...`
fallback in the handler. -/
def descType (f : FileDesc) : String :=
  match f.type with
  | some t => if t = "" then "application/octet-stream" else t
  | none => "application/octet-stream"

/-- Derived object key: `uploads/{transferId}/{safeName}`. -/
def objectPathFor (tid : String) (f : FileDesc) : String :=
  "uploads/" ++ tid ++ "/" ++ sanitizeName f.name

/-- Zod validation of the `/init` body: at least one file, each name
nonempty, each given size a nonnegative integer. -/
def initValid (files : List FileDesc) : Bool :=
  !files.isEmpty &&
    files.all (fun f => f.name != "" && (f.size.all fun n => decide (0 ≤ n)))

/-- The signed-URL oracle of the object store:
arguments are object path, content type and expiry instant; the result is
a write URL or a provider error. -/
def GrantFn : Type := String → String → Nat → Except String String

/-- One element of the `uploads` array returned by `/init`. -/
structure UploadGrant where
  name : String
  type : String
  size : Option Int
  objectPath : String
  uploadUrl : String
deriving DecidableEq

/-- Requesting the write grant for one descriptor (the body of the
`files.map` passed to `Promise.all`). -/
def mkUploadGrant (grant : GrantFn) (tid : String) (exp : Nat) (f : FileDesc) :
    Except String UploadGrant :=
  match grant (objectPathFor tid f) (descType f) exp with
  | .error e => .error e
  | .ok url =>
      .ok { name := f.name, type := descType f, size := f.size,
            objectPath := objectPathFor tid f, uploadUrl := url }

/-- `Promise.all` over the per-file grant requests: succeeds with all
grants, or fails as soon as any single request fails. -/
def collectGrants (grant : GrantFn) (tid : String) (exp : Nat) :
    List FileDesc → Except String (List UploadGrant)
  | [] => .ok []
  | f :: rest =>
    match mkUploadGrant grant tid exp f with
    | .error e => .error e
    | .ok u =>
      match collectGrants grant tid exp rest with
      | .error e => .error e
      | .ok us => .ok (u :: us)

inductive InitResult
  | invalid
  | providerFailure (e : String)
  | ok (transferId : String) (uploads : List UploadGrant) (uploadExpiresAt : Nat)
deriving DecidableEq

/-- Projection from a returned upload grant to the persisted file
metadata (the grant URL is not persisted). -/
def uploadGrantFile (u : UploadGrant) : FileRec :=
  { name := u.name, type := u.type, size := u.size, objectPath := u.objectPath }

/-- Upload-grant TTL: 15 minutes in milliseconds. -/
def UPLOAD_TTL_MS : Nat := 15 * 60 * 1000

/-- The `/init` handler: validate, issue all grants, then persist a
draft document.  If any grant request fails the whole operation fails
and the store is left unchanged. -/
def initTransfer (grant : GrantFn) (store : Store) (tid : String) (now : Nat)
    (files : List FileDesc) : InitResult × Store :=
  if initValid files then
    match collectGrants grant tid (now + UPLOAD_TTL_MS) files with
    | .error e => (.providerFailure e, store)
    | .ok uploads =>
      (.ok tid uploads (now + UPLOAD_TTL_MS),
       setStore store tid
         { transferId := tid, status := "draft", createdAt := now,
           completedAt := none, expiresAt := none,
           files := uploads.map uploadGrantFile })
  else (.invalid, store)

/-! ### `/complete` (finalize) -/

/-- Zod validation of the `/complete` body (`CompleteSchema`). -/
def completeValid (tid : String) (files : List FileRec) : Bool :=
  tid != "" && !files.isEmpty &&
    files.all (fun f => f.name != "" && f.type != "" && f.objectPath != "")

inductive CompleteResult
  | invalid
  | notFound
  | ok (transferId shareUrl : String) (expiresAt : Nat)
deriving DecidableEq

def MS_PER_DAY : Nat := 24 * 60 * 60 * 1000

def SHARE_TTL_DAYS : Nat := 14

/-- The fixed share TTL: `SHARE_TTL_DAYS * MS_PER_DAY` (14 days). -/
def SHARE_TTL_MS : Nat := SHARE_TTL_DAYS * MS_PER_DAY

/-- The `/complete` handler: validate, look the transfer up (404 when
absent), then a merge-write setting status, `completedAt`, `expiresAt`
and replacing `files`. -/
def completeTransfer (store : Store) (tid : String) (files : List FileRec)
    (now : Nat) (frontendBase : String) : CompleteResult × Store :=
  if completeValid tid files then
    match store tid with
    | none => (.notFound, store)
    | some d =>
      (.ok tid (frontendBase ++ "/t/" ++ tid) (now + SHARE_TTL_MS),
       setStore store tid
         { d with status := "ready", completedAt := some now,
                  expiresAt := some (now + SHARE_TTL_MS), files := files })
  else (.invalid, store)

/-! ### `GET /:transferId` (metadata) -/

inductive MetaResult
  | notFound
  | expired
  | view (transferId : String) (status : String) (createdAt : Nat)
      (completedAt expiresAt : Option Nat) (files : List FileRec)
deriving DecidableEq

/-- The metadata handler: 404 when absent, 410 when the stored
`expiresAt` is truthy and in the past, otherwise the stored view.  Note
that the stored `status` is never consulted by this route. -/
def fetchMetadata (store : Store) (tid : String) (now : Nat) : MetaResult :=
  match store tid with
  | none => .notFound
  | some d =>
    if isExpiredCheck d now then .expired
    else .view d.transferId d.status d.createdAt d.completedAt d.expiresAt d.files

/-! ### Download authorization guard

The single-file download route, the zip route and the email route all
run the identical guard sequence: document lookup (404), then
`status !== "ready"` (409), then the expiry check (410). -/

inductive AuthResult
  | notFound
  | notReady
  | expired
  | ok (files : List FileRec)
deriving DecidableEq

def authorizeDownload (store : Store) (tid : String) (now : Nat) : AuthResult :=
  match store tid with
  | none => .notFound
  | some d =>
    if d.status != "ready" then .notReady
    else if isExpiredCheck d now then .expired
    else .ok d.files

/-! ### `GET /:transferId/files/:index/download` -/

/-- The value of `Number(req.params.index)`: either `NaN` or a (finite)
numeric value, modelled as a rational. -/
inductive JsNum
  | nan
  | val (q : Rat)
deriving DecidableEq

/-- JS array indexing `files[index]` for a numeric index: defined only
for integral indices within range. -/
def jsGetElem (files : List FileRec) (q : Rat) : Option FileRec :=
  if q.den = 1 ∧ 0 ≤ q.num then files.get? q.num.toNat else none

inductive DlResult
  | badRequest
  | notFound
  | notReady
  | expired
  | grant (objectPath fileName : String)
deriving DecidableEq

/-- The single-file download handler: index validation (400) before the
document is read, then the shared guard sequence, then the array lookup
and the `!fileMeta?.objectPath` check (404), then a read grant. -/
def downloadFile (store : Store) (tid : String) (idx : JsNum) (now : Nat) :
    DlResult :=
  match idx with
  | .nan => .badRequest
  | .val q =>
    if q < 0 then .badRequest
    else
      match authorizeDownload store tid now with
      | .notFound => .notFound
      | .notReady => .notReady
      | .expired => .expired
      | .ok files =>
        match jsGetElem files q with
        | none => .notFound
        | some f =>
          if f.objectPath = "" then .notFound else .grant f.objectPath f.name

/-! ### `POST /:transferId/email` -/

inductive EmailResult
  | invalid
  | notFound
  | notReady
  | expired
  | misconfigured
  | providerFailure
  | sent (shareUrl : String)
deriving DecidableEq

/-- The email handler: body validation, then the shared guard sequence,
then the Mailgun configuration check, then the actual submission (whose
success is the `sendOk` oracle). -/
def emailShare (store : Store) (tid : String) (now : Nat) (bodyValid : Bool)
    (configured : Bool) (sendOk : Bool) (frontendBase : String) : EmailResult :=
  if !bodyValid then .invalid
  else
    match authorizeDownload store tid now with
    | .notFound => .notFound
    | .notReady => .notReady
    | .expired => .expired
    | .ok _ =>
      if !configured then .misconfigured
      else if sendOk then .sent (frontendBase ++ "/t/" ++ tid)
      else .providerFailure

/-! ### `GET /:transferId/download.zip` (archive assembly)

Member names are derived from the sanitized file name; on a collision
with an earlier member, ` (counter)` is inserted before the extension,
with the counter starting at 2 and incremented until the name is
unused. -/

/-- JS `safeBase.lastIndexOf "."` over the character list, as an
optional index (JS returns -1 when absent). -/
def lastDotIdxAux : List Char → Nat → Option Nat → Option Nat
  | [], _, acc => acc
  | c :: rest, i, acc =>
    lastDotIdxAux rest (i + 1) (if c = '.' then some i else acc)

def lastDotIdx (l : List Char) : Option Nat := lastDotIdxAux l 0 none

/-- Insert ` (n)` before the extension of `base` when its last dot is at
a positive index, otherwise append ` (n)` at the end. -/
def withCounter (base : String) (n : Nat) : String :=
  match lastDotIdx base.data with
  | some d =>
    if 0 < d then
      String.mk (base.data.take d) ++ " (" ++ Nat.repr n ++ ")" ++
        String.mk (base.data.drop d)
    else base ++ " (" ++ Nat.repr n ++ ")"
  | none => base ++ " (" ++ Nat.repr n ++ ")"

/-- The sequence of names tried by the collision loop: the sanitized
base itself, then `base (2)`, `base (3)`, ... -/
def candidateName (base : String) : Nat → String
  | 0 => base
  | j + 1 => withCounter base (j + 2)

/-- The `while (usedNames.has(finalName))` loop, with enough fuel to be
total; the fuel is never exhausted (see `pickName_not_mem`). -/
def pickNameAux (used : List String) (base : String) : Nat → Nat → String
  | 0, j => candidateName base j
  | fuel + 1, j =>
    if candidateName base j ∈ used then pickNameAux used base fuel (j + 1)
    else candidateName base j

def pickName (used : List String) (base : String) : String :=
  pickNameAux used base (used.length + 1) 0

/-- Fallback member name for an empty sanitized base: `file-{i+1}`. -/
def zipFallback (i : Nat) : String := "file-" ++ Nat.repr (i + 1)

/-- The member loop of the zip route: one `(finalName, objectPath)`
entry per file with a truthy `objectPath` (others are skipped by
`continue`), in input order, the name made unique against all earlier
members. -/
def zipEntriesAux : List FileRec → Nat → List String → List (String × String)
  | [], _, _ => []
  | f :: rest, i, used =>
    if f.objectPath = "" then zipEntriesAux rest (i + 1) used
    else
      let base0 := sanitizeName f.name
      let safeBase := if base0 = "" then zipFallback i else base0
      let finalName := pickName used safeBase
      (finalName, f.objectPath) :: zipEntriesAux rest (i + 1) (finalName :: used)

def zipEntries (files : List FileRec) : List (String × String) :=
  zipEntriesAux files 0 []

inductive ZipResult
  | notFound
  | notReady
  | expired
  | noFiles
  | archive (members : List (String × String))
deriving DecidableEq

/-- The zip route: the shared guard sequence, then the empty-file-list
rejection (404, before the archive is created and before any object
read stream is opened), then the member list in input order. -/
def downloadZip (store : Store) (tid : String) (now : Nat) : ZipResult :=
  match authorizeDownload store tid now with
  | .notFound => .notFound
  | .notReady => .notReady
  | .expired => .expired
  | .ok files =>
    if files.isEmpty then .noFiles
    else .archive (zipEntries files)

/-! ### Helper lemmas: strings and decimal representations -/

theorem strData_append (a b : String) : (a ++ b).data = a.data ++ b.data := by
  cases a; cases b; rfl

theorem strExt {a b : String} (h : a.data = b.data) : a = b := by
  cases a; cases b; exact congrArg String.mk h

theorem data_mk (l : List Char) : (String.mk l).data = l := rfl

theorem data_spaceParen : (" (" : String).data = [' ', '('] := rfl

theorem data_rparen : (")" : String).data = [')'] := rfl

theorem asString_data (l : List Char) : l.asString.data = l := rfl

/-- Numeric value of a decimal digit character. -/
def digitVal (c : Char) : Nat := c.toNat - 48

/-- Decode a most-significant-first decimal digit list. -/
def decodeDigits (l : List Char) : Nat :=
  l.foldl (fun a c => a * 10 + digitVal c) 0

/-- Decimal digits of a natural number, most significant first; agrees
with `Nat.repr` (see `repr_eq_natDigits`) but is structurally easier to
reason about. -/
def natDigits (n : Nat) : List Char :=
  if _h : n < 10 then [Nat.digitChar n]
  else natDigits (n / 10) ++ [Nat.digitChar (n % 10)]
decreasing_by exact Nat.div_lt_self (by omega) (by omega)

theorem natDigits_lt {n : Nat} (h : n < 10) :
    natDigits n = [Nat.digitChar n] := by
  rw [natDigits, dif_pos h]

theorem natDigits_ge {n : Nat} (h : ¬ n < 10) :
    natDigits n = natDigits (n / 10) ++ [Nat.digitChar (n % 10)] := by
  rw [natDigits, dif_neg h]

theorem digitVal_digitChar {d : Nat} (h : d < 10) :
    digitVal (Nat.digitChar d) = d := by
  interval_cases d <;> rfl

theorem decodeDigits_append_digit (l : List Char) (c : Char) :
    decodeDigits (l ++ [c]) = decodeDigits l * 10 + digitVal c := by
  simp [decodeDigits, List.foldl_append]

theorem decodeDigits_natDigits (n : Nat) : decodeDigits (natDigits n) = n := by
  induction n using Nat.strong_induction_on with
  | _ n ih =>
    by_cases h : n < 10
    · rw [natDigits_lt h]
      simp [decodeDigits, digitVal_digitChar h]
    · rw [natDigits_ge h, decodeDigits_append_digit, ih (n / 10) (by omega),
        digitVal_digitChar (show n % 10 < 10 by omega)]
      omega

theorem natDigits_injective : Function.Injective natDigits := by
  intro a b h
  have ha := decodeDigits_natDigits a
  rw [h, decodeDigits_natDigits] at ha
  omega

theorem toDigitsCore_eq_natDigits :
    ∀ (fuel n : Nat) (acc : List Char), n < fuel →
      Nat.toDigitsCore 10 fuel n acc = natDigits n ++ acc := by
  intro fuel
  induction fuel with
  | zero => intro n acc h; omega
  | succ f ih =>
    intro n acc h
    simp only [Nat.toDigitsCore]
    by_cases h10 : n / 10 = 0
    · rw [if_pos h10]
      have hn : n < 10 := by omega
      rw [natDigits_lt hn, Nat.mod_eq_of_lt hn]
      rfl
    · rw [if_neg h10, ih (n / 10) _ (by omega),
        natDigits_ge (show ¬ n < 10 by omega)]
      simp

theorem repr_eq_natDigits (n : Nat) : Nat.repr n = (natDigits n).asString := by
  show (Nat.toDigits 10 n).asString = _
  rw [Nat.toDigits, toDigitsCore_eq_natDigits (n + 1) n [] (by omega),
    List.append_nil]

theorem reprInjective : Function.Injective Nat.repr := by
  intro a b h
  rw [repr_eq_natDigits, repr_eq_natDigits] at h
  exact natDigits_injective (by simpa [asString_data] using congrArg String.data h)

/-! ### Zip member naming: freshness and uniqueness -/

theorem withCounter_spec (base : String) :
    ∃ pre suf : List Char,
      (∀ m : Nat, (withCounter base m).data =
        pre ++ ' ' :: '(' :: ((Nat.repr m).data ++ ')' :: suf)) ∧
      pre.length + suf.length = base.data.length := by
  unfold withCounter
  cases h : lastDotIdx base.data with
  | none =>
    refine ⟨base.data, [], fun m => ?_, by simp⟩
    simp [strData_append, data_spaceParen, data_rparen]
  | some d =>
    by_cases hd : 0 < d
    · refine ⟨base.data.take d, base.data.drop d, fun m => ?_, ?_⟩
      · simp [hd, strData_append, data_spaceParen, data_rparen, data_mk]
      · simp [List.length_take, List.length_drop]
        omega
    · refine ⟨base.data, [], fun m => ?_, by simp⟩
      simp [hd, strData_append, data_spaceParen, data_rparen]

theorem candidateName_injective (base : String) :
    Function.Injective (candidateName base) := by
  obtain ⟨pre, suf, hspec, hlen⟩ := withCounter_spec base
  have hlength : ∀ m : Nat, (withCounter base m).data.length =
      base.data.length + 3 + (Nat.repr m).data.length := by
    intro m
    rw [hspec m]
    simp only [List.length_append, List.length_cons]
    omega
  have hne : ∀ j : Nat, base ≠ withCounter base (j + 2) := by
    intro j hcontra
    have h1 : base.data.length = (withCounter base (j + 2)).data.length :=
      congrArg List.length (congrArg String.data hcontra)
    rw [hlength] at h1
    omega
  intro a b h
  match a, b with
  | 0, 0 => rfl
  | 0, j + 1 => exact absurd h (hne j)
  | i + 1, 0 => exact absurd h.symm (hne i)
  | i + 1, j + 1 =>
    have h2 : withCounter base (i + 2) = withCounter base (j + 2) := h
    have h3 := congrArg String.data h2
    rw [hspec (i + 2), hspec (j + 2)] at h3
    have h4 := List.append_cancel_left h3
    simp only [List.cons.injEq, true_and] at h4
    have hl : (Nat.repr (i + 2)).data.length = (Nat.repr (j + 2)).data.length := by
      have := congrArg List.length h4
      simpa using this
    have h5 := List.append_inj_left h4 hl
    have h6 : Nat.repr (i + 2) = Nat.repr (j + 2) := strExt h5
    have := reprInjective h6
    omega

theorem pickNameAux_not_mem (used : List String) (base : String) :
    ∀ (fuel j : Nat),
      (∃ k, k < fuel ∧ candidateName base (j + k) ∉ used) →
      pickNameAux used base fuel j ∉ used := by
  intro fuel
  induction fuel with
  | zero =>
    rintro j ⟨k, hk, -⟩
    omega
  | succ f ih =>
    rintro j ⟨k, hk, hfree⟩
    rw [pickNameAux]
    by_cases hmem : candidateName base j ∈ used
    · rw [if_pos hmem]
      have hk0 : k ≠ 0 := by
        rintro rfl
        exact hfree (by simpa using hmem)
      refine ih (j + 1) ⟨k - 1, by omega, ?_⟩
      have : j + 1 + (k - 1) = j + k := by omega
      rw [this]
      exact hfree
    · rw [if_neg hmem]
      exact hmem

theorem exists_fresh_candidate (used : List String) (base : String) :
    ∃ k, k < used.length + 1 ∧ candidateName base k ∉ used := by
  by_contra hc
  push_neg at hc
  have hsub : (List.range (used.length + 1)).map (candidateName base) ⊆ used := by
    intro x hx
    simp only [List.mem_map, List.mem_range] at hx
    obtain ⟨k, hk, rfl⟩ := hx
    exact hc k hk
  have hnodup : ((List.range (used.length + 1)).map (candidateName base)).Nodup :=
    (List.nodup_range _).map (candidateName_injective base)
  have hle := (List.subperm_of_subset hnodup hsub).length_le
  simp at hle

theorem pickName_not_mem (used : List String) (base : String) :
    pickName used base ∉ used := by
  obtain ⟨k, hk, hfree⟩ := exists_fresh_candidate used base
  exact pickNameAux_not_mem used base (used.length + 1) 0
    ⟨k, hk, by simpa using hfree⟩

theorem zipEntriesAux_names (files : List FileRec) :
    ∀ (i : Nat) (used : List String),
      ((zipEntriesAux files i used).map Prod.fst).Nodup ∧
      ∀ x ∈ (zipEntriesAux files i used).map Prod.fst, x ∉ used := by
  induction files with
  | nil =>
    intro i used
    simp [zipEntriesAux]
  | cons f rest ih =>
    intro i used
    rw [zipEntriesAux]
    by_cases hp : f.objectPath = ""
    · rw [if_pos hp]
      exact ih (i + 1) used
    · rw [if_neg hp]
      simp only [List.map_cons, List.nodup_cons, List.mem_cons]
      set safeBase :=
        if sanitizeName f.name = "" then zipFallback i else sanitizeName f.name
        with hsb
      set fn := pickName used safeBase with hfn
      obtain ⟨hnd, hnotin⟩ := ih (i + 1) (fn :: used)
      refine ⟨⟨fun hmem => ?_, hnd⟩, ?_⟩
      · exact (hnotin fn hmem) (by simp)
      · intro x hx
        rcases hx with rfl | hx
        · exact pickName_not_mem used safeBase
        · intro hxu
          exact (hnotin x hx) (by simp [hxu])

theorem zipEntries_names_nodup (files : List FileRec) :
    ((zipEntries files).map Prod.fst).Nodup :=
  (zipEntriesAux_names files 0 []).1

theorem zipEntriesAux_map_snd (files : List FileRec) :
    ∀ (i : Nat) (used : List String), (∀ f ∈ files, f.objectPath ≠ "") →
      (zipEntriesAux files i used).map Prod.snd =
        files.map FileRec.objectPath := by
  induction files with
  | nil =>
    intro i used _
    simp [zipEntriesAux]
  | cons f rest ih =>
    intro i used hne
    rw [zipEntriesAux, if_neg (hne f (by simp))]
    simp only [List.map_cons]
    rw [ih (i + 1) _ (fun g hg => hne g (by simp [hg]))]

/-! ### Grant collection lemmas -/

theorem appendLeft_injective (p : String) :
    Function.Injective (fun s => p ++ s) := by
  intro a b h
  have h2 := congrArg String.data h
  simp only [strData_append] at h2
  exact strExt (List.append_cancel_left h2)

theorem mkUploadGrant_ok {grant : GrantFn} {tid : String} {exp : Nat}
    {f : FileDesc} {u : UploadGrant}
    (h : mkUploadGrant grant tid exp f = .ok u) :
    u.objectPath = objectPathFor tid f ∧
    ∃ url, grant (objectPathFor tid f) (descType f) exp = .ok url := by
  unfold mkUploadGrant at h
  cases hg : grant (objectPathFor tid f) (descType f) exp with
  | error e =>
    rw [hg] at h
    cases h
  | ok url =>
    rw [hg] at h
    injection h with h
    subst h
    exact ⟨rfl, url, rfl⟩

theorem collectGrants_ok {grant : GrantFn} {tid : String} {exp : Nat} :
    ∀ {files : List FileDesc} {ups : List UploadGrant},
      collectGrants grant tid exp files = .ok ups →
      ups.map UploadGrant.objectPath = files.map (objectPathFor tid) ∧
      ups.length = files.length ∧
      ∀ f ∈ files, ∃ url, grant (objectPathFor tid f) (descType f) exp = .ok url := by
  intro files
  induction files with
  | nil =>
    intro ups h
    rw [collectGrants] at h
    injection h with h
    subst h
    simp
  | cons f rest ih =>
    intro ups h
    rw [collectGrants] at h
    cases hg : mkUploadGrant grant tid exp f with
    | error e =>
      rw [hg] at h
      cases h
    | ok u =>
      rw [hg] at h
      cases hr : collectGrants grant tid exp rest with
      | error e =>
        rw [hr] at h
        cases h
      | ok us =>
        rw [hr] at h
        injection h with h
        subst h
        obtain ⟨hpath, hurl⟩ := mkUploadGrant_ok hg
        obtain ⟨hmap, hlen, hall⟩ := ih hr
        refine ⟨?_, ?_, ?_⟩
        · simp [hmap, hpath]
        · simp [hlen]
        · intro g hg2
          rcases List.mem_cons.mp hg2 with rfl | hg2
          · exact hurl
          · exact hall g hg2

theorem collectGrants_error_of_mem {grant : GrantFn} {tid : String} {exp : Nat} :
    ∀ {files : List FileDesc},
      (∃ f ∈ files, ∃ e, grant (objectPathFor tid f) (descType f) exp = .error e) →
      ∃ e2, collectGrants grant tid exp files = .error e2 := by
  intro files
  induction files with
  | nil =>
    rintro ⟨f, hf, -⟩
    cases hf
  | cons f rest ih =>
    rintro ⟨g, hg, e, herr⟩
    rw [collectGrants]
    rcases List.mem_cons.mp hg with rfl | hg
    · refine ⟨e, ?_⟩
      unfold mkUploadGrant
      rw [herr]
    · cases hmk : mkUploadGrant grant tid exp f with
      | error e2 => exact ⟨e2, rfl⟩
      | ok u =>
        obtain ⟨e2, herr2⟩ := ih ⟨g, hg, e, herr⟩
        rw [herr2]
        exact ⟨e2, rfl⟩

/-! ### Concrete fixtures used by witnesses and counterexamples -/

/-- A grant oracle that always succeeds. -/
def okGrant : GrantFn := fun path _ _ => .ok ("signed:" ++ path)

/-- The empty document store. -/
def emptyStore : Store := fun _ => none

/-- Two distinct raw names that sanitize to the same safe name. -/
def c1Files : List FileDesc := [⟨"a?", none, none⟩, ⟨"a!", none, none⟩]

/-- The objectPath values of a successful init result. -/
def initPaths (r : InitResult) : List String :=
  match r with
  | .ok _ ups _ => ups.map UploadGrant.objectPath
  | _ => []

/-! ### C1 -/

/-- C1 counterexample: the valid two-file create input with distinct raw
names `"a?"` and `"a!"` yields two grants whose objectPath values are
both `"uploads/t/a_"` — not pairwise distinct, because the handler
derives paths by sanitization alone and never deduplicates. -/
theorem init_objectPath_collision :
    initValid c1Files = true ∧
    c1Files.map FileDesc.name = ["a?", "a!"] ∧
    initPaths (initTransfer okGrant emptyStore "t" 0 c1Files).1 =
      ["uploads/t/a_", "uploads/t/a_"] ∧
    ¬ (initPaths (initTransfer okGrant emptyStore "t" 0 c1Files).1).Nodup := by
  decide

/-- C1 (amended): every successful create returns exactly one upload
grant per input file, with `objectPath = "uploads/{tid}/{sanitized
name}"`; the objectPath values are pairwise distinct within the transfer
if and only if the sanitized names are pairwise distinct — inputs whose
distinct raw names sanitize to the same safe name produce colliding
objectPath values. -/
theorem init_grants_amended (grant : GrantFn) (store : Store) (tid : String)
    (now : Nat) (files : List FileDesc) (ups : List UploadGrant) (texp : Nat)
    (h : (initTransfer grant store tid now files).1 = .ok tid ups texp) :
    ups.length = files.length ∧
    ups.map UploadGrant.objectPath =
      files.map (fun f => "uploads/" ++ tid ++ "/" ++ sanitizeName f.name) ∧
    ((ups.map UploadGrant.objectPath).Nodup ↔
      (files.map (fun f => sanitizeName f.name)).Nodup) := by
  unfold initTransfer at h
  by_cases hv : initValid files
  · rw [if_pos hv] at h
    cases hc : collectGrants grant tid (now + UPLOAD_TTL_MS) files with
    | error e =>
      rw [hc] at h
      cases h
    | ok us =>
      rw [hc] at h
      have h2 : us = ups := by
        injection h with h1 h2 h3
      subst h2
      obtain ⟨hmap, hlen, -⟩ := collectGrants_ok hc
      have hfac : files.map (objectPathFor tid) =
          (files.map (fun f => sanitizeName f.name)).map
            (fun s => "uploads/" ++ tid ++ "/" ++ s) := by
        rw [List.map_map]
        rfl
      refine ⟨hlen, by rw [hmap]; rfl, ?_⟩
      rw [hmap, hfac,
        List.nodup_map_iff (appendLeft_injective ("uploads/" ++ tid ++ "/"))]
  · rw [if_neg hv] at h
    cases h

/-- Input files for the C1 amended witness: distinct sanitized names. -/
def c1wFiles : List FileDesc :=
  [⟨"r.pdf", some "application/pdf", some 10⟩, ⟨"b c.txt", none, none⟩]

/-- The grants produced for `c1wFiles` by `okGrant`. -/
def c1wUps : List UploadGrant :=
  [⟨"r.pdf", "application/pdf", some 10, "uploads/w1/r.pdf",
    "signed:uploads/w1/r.pdf"⟩,
   ⟨"b c.txt", "application/octet-stream", none, "uploads/w1/b c.txt",
    "signed:uploads/w1/b c.txt"⟩]

/-- Witness for C1 (amended) at a concrete two-file input. -/
theorem init_grants_amended_witness :
    c1wUps.length = c1wFiles.length ∧
    c1wUps.map UploadGrant.objectPath =
      c1wFiles.map (fun f => "uploads/" ++ "w1" ++ "/" ++ sanitizeName f.name) ∧
    ((c1wUps.map UploadGrant.objectPath).Nodup ↔
      (c1wFiles.map (fun f => sanitizeName f.name)).Nodup) :=
  init_grants_amended okGrant emptyStore "w1" 0 c1wFiles c1wUps 900000 (by decide)

/-! ### C6 -/

/-- C6: create is all-or-nothing.  For every schema-valid input, if any
per-file write-grant request fails then the whole create fails with a
provider failure and the document store is left unchanged; a successful
create implies every grant was obtained; and the store is modified only
when create returns success. -/
theorem init_all_or_nothing (grant : GrantFn) (store : Store) (tid : String)
    (now : Nat) (files : List FileDesc) (hv : initValid files = true) :
    ((∃ f ∈ files, ∃ e,
        grant (objectPathFor tid f) (descType f) (now + UPLOAD_TTL_MS) =
          .error e) →
      (∃ e2, (initTransfer grant store tid now files).1 = .providerFailure e2) ∧
      (initTransfer grant store tid now files).2 = store) ∧
    (∀ ups texp, (initTransfer grant store tid now files).1 = .ok tid ups texp →
      ∀ f ∈ files, ∃ url,
        grant (objectPathFor tid f) (descType f) (now + UPLOAD_TTL_MS) =
          .ok url) ∧
    ((initTransfer grant store tid now files).2 = store ∨
      ∃ ups texp,
        (initTransfer grant store tid now files).1 = .ok tid ups texp) := by
  refine ⟨?_, ?_, ?_⟩
  · intro hex
    obtain ⟨e2, herr⟩ := collectGrants_error_of_mem hex
    unfold initTransfer
    rw [if_pos hv, herr]
    exact ⟨⟨e2, rfl⟩, rfl⟩
  · intro ups texp h
    unfold initTransfer at h
    rw [if_pos hv] at h
    cases hc : collectGrants grant tid (now + UPLOAD_TTL_MS) files with
    | error e =>
      rw [hc] at h
      cases h
    | ok us =>
      exact (collectGrants_ok hc).2.2
  · cases hc : collectGrants grant tid (now + UPLOAD_TTL_MS) files with
    | error e =>
      left
      unfold initTransfer
      rw [if_pos hv, hc]
    | ok us =>
      right
      refine ⟨us, now + UPLOAD_TTL_MS, ?_⟩
      unfold initTransfer
      rw [if_pos hv, hc]

/-- A grant oracle failing exactly on the second file of `c6Files`. -/
def failGrant : GrantFn := fun path _ _ =>
  if path = "uploads/w6/bad_txt" then .error "boom"
  else .ok ("signed:" ++ path)

def c6Files : List FileDesc := [⟨"ok.txt", none, none⟩, ⟨"bad?txt", none, none⟩]

/-- Witness for C6 at a concrete input whose second grant request
fails. -/
theorem init_all_or_nothing_witness :
    ((∃ f ∈ c6Files, ∃ e,
        failGrant (objectPathFor "w6" f) (descType f) (0 + UPLOAD_TTL_MS) =
          .error e) →
      (∃ e2,
        (initTransfer failGrant emptyStore "w6" 0 c6Files).1 =
          .providerFailure e2) ∧
      (initTransfer failGrant emptyStore "w6" 0 c6Files).2 = emptyStore) ∧
    (∀ ups texp,
      (initTransfer failGrant emptyStore "w6" 0 c6Files).1 = .ok "w6" ups texp →
      ∀ f ∈ c6Files, ∃ url,
        failGrant (objectPathFor "w6" f) (descType f) (0 + UPLOAD_TTL_MS) =
          .ok url) ∧
    ((initTransfer failGrant emptyStore "w6" 0 c6Files).2 = emptyStore ∨
      ∃ ups texp,
        (initTransfer failGrant emptyStore "w6" 0 c6Files).1 =
          .ok "w6" ups texp) :=
  init_all_or_nothing failGrant emptyStore "w6" 0 c6Files (by decide)

/-! ### C2 -/

theorem isExpiredCheck_iff (d : TransferDoc) (now : Nat) :
    isExpiredCheck d now = true ↔
      ∃ e, d.expiresAt = some e ∧ e ≠ 0 ∧ e < now := by
  unfold isExpiredCheck
  cases he : d.expiresAt with
  | none => simp
  | some e => simp [Bool.and_eq_true, bne_iff_ne, decide_eq_true_iff]

/-- A draft document that nevertheless carries an `expiresAt` field. -/
def c2Doc : TransferDoc :=
  ⟨"t2", "draft", 0, none, some 5, [⟨"x.txt", "text/plain", none,
    "uploads/t2/x.txt"⟩]⟩

def c2Store : Store := fun t => if t = "t2" then some c2Doc else none

/-- C2 counterexample: `fetchMetadata` never consults the stored status,
so a stored record whose status is Draft but which carries the numeric
field `expiresAt = 5` is reported Expired at clock value 10 — refuting
the claim that Expired is reported only for Ready transfers. -/
theorem fetchMetadata_draft_expired :
    c2Store "t2" = some c2Doc ∧
    c2Doc.status = "draft" ∧
    fetchMetadata c2Store "t2" 10 = .expired := by
  decide

/-- C2 (amended): `fetchMetadata` reports Expired if and only if the
stored record carries a truthy (nonzero) numeric `expiresAt` with
`now > expiresAt`, regardless of the stored status field.  (Records
written by this code give drafts no `expiresAt`, so for self-produced
stores a Draft is indeed never reported Expired, but the status itself
is never checked.) -/
theorem fetchMetadata_expired_iff (store : Store) (tid : String) (now : Nat)
    (d : TransferDoc) (h : store tid = some d) :
    fetchMetadata store tid now = .expired ↔
      ∃ e, d.expiresAt = some e ∧ e ≠ 0 ∧ e < now := by
  have hiff := isExpiredCheck_iff d now
  have hfm : fetchMetadata store tid now =
      if isExpiredCheck d now = true then .expired
      else .view d.transferId d.status d.createdAt d.completedAt d.expiresAt
        d.files := by
    unfold fetchMetadata
    rw [h]
  rw [hfm]
  by_cases hch : isExpiredCheck d now = true
  · rw [if_pos hch]
    exact ⟨fun _ => hiff.mp hch, fun _ => rfl⟩
  · rw [if_neg hch]
    constructor
    · intro hcontra
      exact absurd hcontra (by simp)
    · intro hex
      exact absurd (hiff.mpr hex) hch

/-- Witness for C2 (amended): the concrete draft-with-expiry record is
reported Expired at clock value 10. -/
theorem fetchMetadata_expired_iff_witness :
    fetchMetadata c2Store "t2" 10 = .expired :=
  (fetchMetadata_expired_iff c2Store "t2" 10 c2Doc (by decide)).mpr
    ⟨5, by decide, by decide, by decide⟩

/-! ### C3 -/

/-- C3: finalize on an unknown id yields NotFound and leaves the store
unchanged; finalize on a known id (with a schema-valid, non-empty
confirmed file list) performs exactly one merge-write setting
status = ready, `completedAt = now`, `expiresAt = now + SHARE_TTL_MS`
(completedAt plus the fixed TTL, exactly) and replacing `files` with the
confirmed set, while preserving `transferId` and `createdAt`. -/
theorem complete_spec (store : Store) (tid : String) (files : List FileRec)
    (now : Nat) (base : String) (d : TransferDoc)
    (hv : completeValid tid files = true) :
    (store tid = none →
      completeTransfer store tid files now base = (.notFound, store)) ∧
    (store tid = some d →
      completeTransfer store tid files now base =
        (.ok tid (base ++ "/t/" ++ tid) (now + SHARE_TTL_MS),
         setStore store tid
           { d with status := "ready", completedAt := some now,
                    expiresAt := some (now + SHARE_TTL_MS),
                    files := files })) := by
  constructor
  · intro h
    unfold completeTransfer
    rw [if_pos hv, h]
  · intro h
    unfold completeTransfer
    rw [if_pos hv, h]

def c3Doc : TransferDoc :=
  ⟨"t3", "draft", 1, none, none,
   [⟨"x?y.txt", "text/plain", some 7, "uploads/t3/x_y.txt"⟩]⟩

def c3Store : Store := fun t => if t = "t3" then some c3Doc else none

def c3Files : List FileRec :=
  [⟨"x?y.txt", "text/plain", some 7, "uploads/t3/x_y.txt"⟩]

/-- Witness for C3 at a concrete store holding one draft document. -/
theorem complete_spec_witness :
    (c3Store "t3" = none →
      completeTransfer c3Store "t3" c3Files 100 "fb" = (.notFound, c3Store)) ∧
    (c3Store "t3" = some c3Doc →
      completeTransfer c3Store "t3" c3Files 100 "fb" =
        (.ok "t3" ("fb" ++ "/t/" ++ "t3") (100 + SHARE_TTL_MS),
         setStore c3Store "t3"
           { c3Doc with status := "ready", completedAt := some 100,
                        expiresAt := some (100 + SHARE_TTL_MS),
                        files := c3Files })) :=
  complete_spec c3Store "t3" c3Files 100 "fb" c3Doc (by decide)

/-! ### Guard reduction helpers -/

theorem authorizeDownload_eq (store : Store) (tid : String) (now : Nat)
    (d : TransferDoc) (h : store tid = some d) :
    authorizeDownload store tid now =
      if d.status != "ready" then .notReady
      else if isExpiredCheck d now then .expired
      else .ok d.files := by
  unfold authorizeDownload
  rw [h]

theorem emailShare_false (store : Store) (tid : String) (now : Nat)
    (configured sendOk : Bool) (base : String) :
    emailShare store tid now false configured sendOk base = .invalid := rfl

theorem emailShare_eq (store : Store) (tid : String) (now : Nat)
    (configured sendOk : Bool) (base : String) (d : TransferDoc)
    (h : store tid = some d) :
    emailShare store tid now true configured sendOk base =
      if d.status != "ready" then .notReady
      else if isExpiredCheck d now then .expired
      else if !configured then .misconfigured
      else if sendOk then .sent (base ++ "/t/" ++ tid)
      else .providerFailure := by
  unfold emailShare
  rw [authorizeDownload_eq store tid now d h]
  by_cases h1 : (d.status != "ready") = true
  · simp [h1]
  · by_cases h2 : isExpiredCheck d now = true
    · simp [h1, h2]
    · simp [h1, h2]

/-- The email handler reaches the point of actually submitting a message
exactly when its outcome is a submission success or a submission
failure. -/
def emailSubmits (r : EmailResult) : Prop :=
  r = .providerFailure ∨ ∃ u, r = .sent u

/-! ### C7 -/

/-- C7: the email dispatch proceeds past its guards only for stored
transfers on which download authorization also succeeds: whenever the
email operation reaches the point of submitting a message the stored
status is `"ready"`, the transfer is not expired, and
`authorizeDownload` returns the file list; a Draft transfer is refused
with NotReady and a Ready-but-expired transfer with Expired. -/
theorem email_guards (store : Store) (tid : String) (now : Nat)
    (bodyValid configured sendOk : Bool) (base : String) (d : TransferDoc)
    (h : store tid = some d) :
    (emailSubmits (emailShare store tid now bodyValid configured sendOk base) →
      d.status = "ready" ∧ isExpiredCheck d now = false ∧
      authorizeDownload store tid now = .ok d.files) ∧
    (bodyValid = true → d.status = "draft" →
      emailShare store tid now bodyValid configured sendOk base = .notReady) ∧
    (bodyValid = true → d.status = "ready" → isExpiredCheck d now = true →
      emailShare store tid now bodyValid configured sendOk base = .expired) := by
  refine ⟨?_, ?_, ?_⟩
  · intro hres
    cases hbv : bodyValid with
    | false =>
      rw [hbv, emailShare_false] at hres
      rcases hres with h2 | ⟨u, h2⟩ <;> simp at h2
    | true =>
      rw [hbv, emailShare_eq store tid now configured sendOk base d h] at hres
      by_cases h1 : (d.status != "ready") = true
      · rw [if_pos h1] at hres
        rcases hres with h2 | ⟨u, h2⟩ <;> simp at h2
      · rw [if_neg h1] at hres
        by_cases h2 : isExpiredCheck d now = true
        · rw [if_pos h2] at hres
          rcases hres with h3 | ⟨u, h3⟩ <;> simp at h3
        · have hst : d.status = "ready" := by
            simpa [bne_iff_ne, ne_eq, not_not] using h1
          have hex : isExpiredCheck d now = false := by
            revert h2
            cases isExpiredCheck d now <;> simp
          refine ⟨hst, hex, ?_⟩
          rw [authorizeDownload_eq store tid now d h, if_neg h1, if_neg h2]
  · intro hbv hdraft
    subst hbv
    rw [emailShare_eq store tid now configured sendOk base d h]
    simp [hdraft]
  · intro hbv hready hexp
    subst hbv
    rw [emailShare_eq store tid now configured sendOk base d h]
    simp [hready, hexp]

def c7Doc : TransferDoc :=
  ⟨"t7", "draft", 0, none, none,
   [⟨"a.txt", "text/plain", none, "uploads/t7/a.txt"⟩]⟩

def c7Store : Store := fun t => if t = "t7" then some c7Doc else none

/-- Witness for C7: a concrete Draft transfer is refused with
NotReady. -/
theorem email_guards_witness :
    emailShare c7Store "t7" 5 true true true "fb" = .notReady :=
  (email_guards c7Store "t7" 5 true true true "fb" c7Doc (by decide)).2.1
    rfl (by decide)

/-! ### C8 -/

/-- C8: the download authorization guard (shared by the single-file
download route and the archive route) rejects every stored transfer
whose status is `"draft"` with NotReady, for every clock value —
including clocks far past creation — and for every valid requested
index. -/
theorem draft_download_rejected (store : Store) (tid : String) (now : Nat)
    (q : Rat) (d : TransferDoc) (h : store tid = some d)
    (hdraft : d.status = "draft") (hq : 0 ≤ q) :
    authorizeDownload store tid now = .notReady ∧
    downloadZip store tid now = .notReady ∧
    downloadFile store tid (.val q) now = .notReady := by
  have hauth : authorizeDownload store tid now = .notReady := by
    rw [authorizeDownload_eq store tid now d h]
    simp [hdraft]
  refine ⟨hauth, ?_, ?_⟩
  · unfold downloadZip
    rw [hauth]
  · simp only [downloadFile]
    rw [if_neg (not_lt.mpr hq), hauth]

def c8Doc : TransferDoc :=
  ⟨"t8", "draft", 0, none, none,
   [⟨"a.txt", "text/plain", none, "uploads/t8/a.txt"⟩]⟩

def c8Store : Store := fun t => if t = "t8" then some c8Doc else none

/-- Witness for C8: a Draft transfer is rejected with NotReady at a
clock value far past its creation time. -/
theorem draft_download_rejected_witness :
    authorizeDownload c8Store "t8" 999999999999999 = .notReady ∧
    downloadZip c8Store "t8" 999999999999999 = .notReady ∧
    downloadFile c8Store "t8" (.val 0) 999999999999999 = .notReady :=
  draft_download_rejected c8Store "t8" 999999999999999 0 c8Doc (by decide)
    (by decide) (by decide)

/-! ### C9 -/

/-- C9: archive assembly over a Ready, non-expired transfer whose
stored file list is empty is rejected with the no-files error; no
archive member list (hence no object read stream) is ever produced. -/
theorem zip_empty_rejected (store : Store) (tid : String) (now : Nat)
    (d : TransferDoc) (h : store tid = some d) (hready : d.status = "ready")
    (hexp : isExpiredCheck d now = false) (hfiles : d.files = []) :
    downloadZip store tid now = .noFiles := by
  unfold downloadZip
  rw [authorizeDownload_eq store tid now d h]
  simp [hready, hexp, hfiles]

def c9Doc : TransferDoc := ⟨"t9", "ready", 0, some 1, some 1000, []⟩

def c9Store : Store := fun t => if t = "t9" then some c9Doc else none

/-- Witness for C9: a concrete Ready, non-expired transfer with an
empty file list yields the no-files rejection. -/
theorem zip_empty_rejected_witness : downloadZip c9Store "t9" 50 = .noFiles :=
  zip_empty_rejected c9Store "t9" 50 c9Doc (by decide) (by decide) (by decide)
    (by decide)

/-! ### C10 -/

/-- C10: at the single-file download route, a NaN or negative index is
rejected as invalid input before the transfer record is read (the
outcome does not depend on the store at all); for a Ready, non-expired
transfer, a non-negative index with no corresponding file record — a
fractional number or one at or beyond the length of the file sequence —
yields NotFound, so no read grant is issued. -/
theorem download_index_validation (store store2 : Store) (tid : String)
    (now : Nat) (q : Rat) (d : TransferDoc) :
    downloadFile store tid .nan now = .badRequest ∧
    (q < 0 → downloadFile store tid (.val q) now = .badRequest) ∧
    downloadFile store tid .nan now = downloadFile store2 tid .nan now ∧
    (q < 0 → downloadFile store tid (.val q) now =
      downloadFile store2 tid (.val q) now) ∧
    (store tid = some d → d.status = "ready" → isExpiredCheck d now = false →
      0 ≤ q → (q.den ≠ 1 ∨ (d.files.length : Int) ≤ q.num) →
      downloadFile store tid (.val q) now = .notFound) := by
  refine ⟨rfl, ?_, rfl, ?_, ?_⟩
  · intro hq
    simp only [downloadFile]
    rw [if_pos hq]
  · intro hq
    simp only [downloadFile]
    rw [if_pos hq, if_pos hq]
  · intro h hready hexp hq hbad
    have hnone : jsGetElem d.files q = none := by
      unfold jsGetElem
      rcases hbad with hden | hlen
      · rw [if_neg (fun hc => hden hc.1)]
      · by_cases hden1 : q.den = 1 ∧ 0 ≤ q.num
        · rw [if_pos hden1]
          apply List.get?_eq_none.mpr
          omega
        · rw [if_neg hden1]
    simp only [downloadFile]
    rw [if_neg (not_lt.mpr hq), authorizeDownload_eq store tid now d h]
    simp [hready, hexp, hnone]

def c10Doc : TransferDoc :=
  ⟨"t10", "ready", 0, some 1, some 1000,
   [⟨"a.txt", "text/plain", none, "uploads/t10/a.txt"⟩]⟩

def c10Store : Store := fun t => if t = "t10" then some c10Doc else none

/-- Witness for C10: NaN and -1 are rejected before the store is read,
and the out-of-range index 5 on a Ready, non-expired one-file transfer
yields NotFound. -/
theorem download_index_validation_witness :
    downloadFile c10Store "t10" .nan 5 = .badRequest ∧
    downloadFile c10Store "t10" (.val (-1)) 5 = .badRequest ∧
    downloadFile c10Store "t10" .nan 5 = downloadFile emptyStore "t10" .nan 5 ∧
    downloadFile c10Store "t10" (.val (-1)) 5 =
      downloadFile emptyStore "t10" (.val (-1)) 5 ∧
    downloadFile c10Store "t10" (.val 5) 5 = .notFound :=
  ⟨(download_index_validation c10Store emptyStore "t10" 5 (-1) c10Doc).1,
   (download_index_validation c10Store emptyStore "t10" 5 (-1) c10Doc).2.1
     (by decide),
   (download_index_validation c10Store emptyStore "t10" 5 (-1) c10Doc).2.2.1,
   (download_index_validation c10Store emptyStore "t10" 5 (-1) c10Doc).2.2.2.1
     (by decide),
   (download_index_validation c10Store emptyStore "t10" 5 5 c10Doc).2.2.2.2
     (by decide) (by decide) (by decide) (by decide) (Or.inr (by decide))⟩

/-! ### C4 -/

/-- C4: for every non-empty sequence of file records accepted for
archive assembly (each carrying the nonempty `objectPath` that the
finalize schema guarantees), the produced archive has exactly one member
per input file, and the members — identified by the object they are
read from — appear in exactly the input order. -/
theorem zip_members_order (files : List FileRec) (_hne : files ≠ [])
    (hpaths : ∀ f ∈ files, f.objectPath ≠ "") :
    (zipEntries files).length = files.length ∧
    (zipEntries files).map Prod.snd = files.map FileRec.objectPath := by
  have h := zipEntriesAux_map_snd files 0 [] hpaths
  refine ⟨?_, h⟩
  have h2 := congrArg List.length h
  simpa using h2

def c4Files : List FileRec :=
  [⟨"a.txt", "text/plain", none, "uploads/t4/a.txt"⟩,
   ⟨"b.txt", "text/plain", none, "uploads/t4/b.txt"⟩,
   ⟨"a.txt", "text/plain", none, "uploads/t4/a.txt"⟩]

/-- Witness for C4 at a concrete three-file list (with a duplicated
name, which still yields three members in input order). -/
theorem zip_members_order_witness :
    (zipEntries c4Files).length = c4Files.length ∧
    (zipEntries c4Files).map Prod.snd = c4Files.map FileRec.objectPath :=
  zip_members_order c4Files (by decide) (by decide)

/-! ### C5 -/

/-- C5: archive member naming is a deterministic function of the ordered
input; the duplicate input names `["a.txt", "a.txt"]` yield the member
names `"a.txt"` and `"a (2).txt"` in that order (the counter suffix is
inserted before the extension), and in general the collision loop makes
the produced member names pairwise distinct for every input sequence. -/
theorem zip_member_naming :
    zipEntries [⟨"a.txt", "text/plain", none, "uploads/t/a.txt"⟩,
                ⟨"a.txt", "text/plain", none, "uploads/t/a.txt"⟩] =
      [("a.txt", "uploads/t/a.txt"), ("a (2).txt", "uploads/t/a.txt")] ∧
    ∀ files : List FileRec, ((zipEntries files).map Prod.fst).Nodup :=
  ⟨by decide, zipEntries_names_nodup⟩

end SwiftTransfer
